import Mathlib

/-!
Shallow embedding of the chaifi wpa_supplicant.conf manager (src/chaifi.go).

Strings are modelled as `List Char` (Go strings are byte sequences; all the
constants involved are ASCII, so character lists are a faithful model).
Go runtime panics (index out of range, slice bounds out of range, nil pointer
dereference) are modelled by `Option`: `none` is a panic, `some` a normal
result.  Stateful loops are folds over explicit state records.
-/

/-- Network record: ssid, psk, security (src/chaifi.go, `type Network struct`). -/
structure Network where
  ssid : List Char
  psk : List Char
  security : Bool
deriving DecidableEq, Repr

/-- The marker line constant `chaifiMarker`. -/
def chaifiMarker : List Char := "# CHAIFI: DO NOT EDIT BELOW THIS LINE".toList

/-- `escapeString`: `strings.ReplaceAll(val, "\\", "\\\\")` then
`strings.ReplaceAll(escaped, "\"", "\\\"")`.  Both patterns are single
characters, so each ReplaceAll is exactly a character-wise flat map. -/
def escapeString (val : List Char) : List Char :=
  (val.flatMap (fun c => if c = '\\' then ['\\', '\\'] else [c])).flatMap
    (fun c => if c = '"' then ['\\', '"'] else [c])

/-- `unescapeString`.  Returns `some (value, errFlag)` mirroring Go's
`(string, error)` pair (on error Go returns the original value together with
the error, and the caller in `loadConfFile` ignores the error and keeps the
value).  Returns `none` for the Go slice panic: when `val = "\""` the code
reaches `val[1:l-1]` = `val[1:0]`, whose bounds are out of range. -/
def unescapeString (val : List Char) : Option (List Char × Bool) :=
  match val with
  | [] => some ([], false)
  | c :: rest =>
    if c = '"' then
      if (c :: rest).getLast? = some '"' then
        if rest = [] then none
        else some (rest.dropLast, false)
      else some (c :: rest, true)
    else some (c :: rest, false)

/-- `genNetworkEntry`: serialize one network block.  Field order and the
omission of empty ssid/psk lines follow the Go `+=` sequence. -/
def genNetworkEntry (network : Network) : List Char :=
  "network=\x7b\n".toList
  ++ (if network.ssid = [] then []
      else "    ssid=\"".toList ++ escapeString network.ssid ++ "\"\n".toList)
  ++ "    key_mgmt=".toList
  ++ (if network.security then "WPA-PSK".toList else "NONE".toList) ++ ['\n']
  ++ (if network.psk = [] then []
      else "    psk=\"".toList ++ escapeString network.psk ++ "\"\n".toList)
  ++ "\x7d\n".toList

/-- Drop a single trailing carriage return, as `bufio.ScanLines`' `dropCR`. -/
def dropCR (l : List Char) : List Char :=
  if l.getLast? = some '\r' then l.dropLast else l

/-- Worker for `splitLines`; `acc` holds the current line reversed. -/
def splitLinesAux : List Char → List Char → List (List Char)
  | [], acc => if acc.isEmpty then [] else [dropCR acc.reverse]
  | c :: rest, acc =>
    if c = '\n' then dropCR acc.reverse :: splitLinesAux rest []
    else splitLinesAux rest (c :: acc)

/-- `bufio.Scanner` with `ScanLines`: split on `'\n'`, drop one trailing
`'\r'` per line, no empty final token for a trailing newline. -/
def splitLines (s : List Char) : List (List Char) := splitLinesAux s []

/-- `strings.Trim(line, " ")`: remove leading and trailing spaces. -/
def trimSpaces (l : List Char) : List Char :=
  ((l.dropWhile (fun c => c = ' ')).reverse.dropWhile (fun c => c = ' ')).reverse

/-- `strings.SplitN(line, "=", 2)`: split at the first `'='`.  The second
component is `none` when the line has no `'='` (Go then produces a
single-element slice and the caller's `parts[1]` panics). -/
def splitFirstEq : List Char → List Char × Option (List Char)
  | [] => ([], none)
  | c :: cs =>
    if c = '=' then ([], some cs)
    else
      let p := splitFirstEq cs
      (c :: p.1, p.2)

/-- Does the line start with the marker (`strings.Index(line, chaifiMarker) == 0`)? -/
def isMarkerLine (l : List Char) : Bool := chaifiMarker.isPrefixOf l

/-- Loop state of `loadConfFile`: the `inGeneratedSection` flag, the current
`*Network` (`none` = nil pointer), and the accumulated result slice. -/
structure LoadState where
  inGen : Bool
  network : Option Network
  result : List Network
deriving DecidableEq, Repr

/-- One iteration of the `loadConfFile` scan loop.  `none` models a panic:
`parts[1]` when the line has no `'='`, the nil `network` dereference, or a
panic inside `unescapeString`. -/
def processLine (st : LoadState) (line : List Char) : Option LoadState :=
  if isMarkerLine line then some { st with inGen := true }
  else if !st.inGen then some st
  else
    let l := trimSpaces line
    if l = [] then some st
    else if l = "network=\x7b".toList then
      some { st with network := some ⟨[], [], false⟩ }
    else if l = "\x7d".toList then
      match st.network with
      | none => none
      | some n => some { st with result := st.result ++ [n] }
    else
      match splitFirstEq l with
      | (_, none) => none
      | (key, some value) =>
        match unescapeString value with
        | none => none
        | some (v, _) =>
          if key = "ssid".toList then
            match st.network with
            | none => none
            | some n => some { st with network := some { n with ssid := v } }
          else if key = "psk".toList then
            match st.network with
            | none => none
            | some n => some { st with network := some { n with psk := v } }
          else if key = "key_mgmt".toList then
            match st.network with
            | none => none
            | some n =>
              some { st with network := some { n with security := decide (v = "WPA-PSK".toList) } }
          else some st

/-- The `loadConfFile` scan loop over a list of lines, threading the state;
a panic (`none`) in any iteration aborts the whole load, as in Go. -/
def parseLines : LoadState → List (List Char) → Option LoadState
  | st, [] => some st
  | st, l :: ls =>
    match processLine st l with
    | none => none
    | some st' => parseLines st' ls

/-- `loadConfFile` on the file's content (the file-open step is outside the
model; the function always returns a nil error, so only the network list and
possible panics are modelled). -/
def loadConfFile (content : List Char) : Option (List Network) :=
  (parseLines ⟨false, none, []⟩ (splitLines content)).map (·.result)

/-- The entry parser of `loadConfFile`: the same loop started inside the
generated section (`inGeneratedSection = true`, nil current network, empty
result), as it runs on the lines following the marker. -/
def parseEntryLines (lines : List (List Char)) : Option (List Network) :=
  (parseLines ⟨true, none, []⟩ lines).map (·.result)

/-- `addNetwork`: append `newNet` unless an entry with the same ssid exists. -/
def addNetwork (networks : List Network) (newNet : Network) : List Network :=
  if networks.any (fun net => decide (net.ssid = newNet.ssid)) then networks
  else networks ++ [newNet]

/-- Scan-loop state of `updateConfFile`: the accumulated `newContent`,
`oldContent` and the `hasGeneratedSection` flag. -/
structure UpdState where
  newContent : List Char
  oldContent : List Char
  hasGen : Bool
deriving DecidableEq, Repr

/-- One iteration of the `updateConfFile` scan loop: the line joins
`newContent` only while the marker has not yet been seen (the marker line
itself is still included, since the flag is set after the append). -/
def updStep (st : UpdState) (line : List Char) : UpdState :=
  { newContent := if st.hasGen then st.newContent else st.newContent ++ line ++ ['\n']
    oldContent := st.oldContent ++ line ++ ['\n']
    hasGen := st.hasGen || isMarkerLine line }

/-- The scan phase of `updateConfFile` over the current file content. -/
def updScan (content : List Char) : UpdState :=
  (splitLines content).foldl updStep ⟨[], [], false⟩

/-- The new content `updateConfFile` computes: scanned prefix, a marker line
if none was present, then one serialized entry per network followed by a
blank line. -/
def newContentOf (content : List Char) (networks : List Network) : List Char :=
  let st := updScan content
  let base := if st.hasGen then st.newContent else st.newContent ++ chaifiMarker ++ ['\n']
  networks.foldl (fun acc n => acc ++ genNetworkEntry n ++ ['\n']) base

/-- `updateConfFile`: returns the resulting file content and the
written/changed flag.  When `oldContent == newContent` the write is skipped
(the file keeps its bytes `content`) and `false` is returned; otherwise the
file is truncated and rewritten with the new content and `true` is returned. -/
def updateConfFile (content : List Char) (networks : List Network) :
    List Char × Bool :=
  if (updScan content).oldContent = newContentOf content networks then (content, false)
  else (newContentOf content networks, true)

/-- `strings.Split(output, "\n")` (always returns at least one element). -/
def splitOnNl : List Char → List (List Char)
  | [] => [[]]
  | c :: rest =>
    if c = '\n' then [] :: splitOnNl rest
    else
      match splitOnNl rest with
      | [] => [[c]]
      | l :: ls => (c :: l) :: ls

/-- `strings.Index(s, pat)` as an `Option Nat`: the first index at which
`pat` occurs in `s`, `none` when absent (Go's `-1`). -/
def findSub (s pat : List Char) : Option Nat :=
  (List.range (s.length + 1)).find? (fun i => pat.isPrefixOf (s.drop i))

/-- The security test of `listScan`: `wpaPos > 0 || rsnPos > 0` where each
`pos` is `strings.Index(line, …) - 1`, i.e. the indicator occurs at index
at least 2. -/
def secOf (line : List Char) : Bool :=
  (match findSub line "WPA<".toList with
   | some i => decide (2 ≤ i)
   | none => false)
  || (match findSub line "RSN<".toList with
      | some i => decide (2 ≤ i)
      | none => false)

/-- Does a record line pass the length check and yield trimmed ssid `s`? -/
def recMatch (ssidEnd : Nat) (s : List Char) (line : List Char) : Bool :=
  decide (ssidEnd + 1 ≤ line.length) && decide (trimSpaces (line.take ssidEnd) = s)

/-- The record loop of `listScan`: skip short lines, extract and trim the
ssid column, skip empty ssids, de-duplicate by exact ssid equality (first
occurrence wins), record the security flag. -/
def scanFold (ssidEnd : Nat) : List (List Char) → List Network → List Network
  | [], acc => acc
  | line :: rest, acc =>
    if line.length < ssidEnd + 1 then scanFold ssidEnd rest acc
    else if trimSpaces (line.take ssidEnd) = [] then scanFold ssidEnd rest acc
    else if acc.any (fun n => decide (n.ssid = trimSpaces (line.take ssidEnd))) then
      scanFold ssidEnd rest acc
    else scanFold ssidEnd rest (acc ++ [⟨trimSpaces (line.take ssidEnd), [], secOf line⟩])

/-- Lexicographic `<` on Go strings (bytewise; ASCII here). -/
def strLt : List Char → List Char → Bool
  | [], [] => false
  | [], _ :: _ => true
  | _ :: _, [] => false
  | a :: as, b :: bs => if a < b then true else if b < a then false else strLt as bs

/-- Insert into a list sorted ascending by ssid. -/
def insertBySsid (n : Network) : List Network → List Network
  | [] => [n]
  | m :: ms => if strLt n.ssid m.ssid then n :: m :: ms else m :: insertBySsid n ms

/-- `sort.Slice(result, ssid <)`.  The Go sort is unspecified on equal keys,
but after de-duplication all ssids are distinct, so every correct sort —
insertion sort included — produces the same list. -/
def sortBySsid (ns : List Network) : List Network := ns.foldr insertBySsid []

/-- The header analysis of `listScan`: ssid column width and record lines, or
`none` when the scan yields no usable header (`ssidEnd < 0` early return). -/
def scanCtx (output : List Char) : Option (Nat × List (List Char)) :=
  match splitOnNl output with
  | [] => none
  | header :: rest =>
    match findSub header "BSSID".toList with
    | none => none
    | some idx => if idx = 0 then none else some (idx - 1, rest)

/-- The pure part of `listScan`, applied to the scan command's output (the
command invocation itself is an external collaborator; on command failure
the function returns nil before reaching this point). -/
def listScanOutput (output : List Char) : List Network :=
  match scanCtx output with
  | none => []
  | some (ssidEnd, rest) => sortBySsid (scanFold ssidEnd rest [])

/-- The in-place element shift performed by
`append(s[:i], s[i+1:lenv]...)` on the shared backing array: slots
`i … lenv-2` receive the old slots `i+1 … lenv-1`; everything else stays. -/
def shiftDown (arr : List Network) (i lenv : Nat) : List Network :=
  arr.take i ++ (arr.drop (i + 1)).take (lenv - 1 - i) ++ arr.drop (lenv - 1)

/-- The `"x"` handler's delete loop
`for i, net := range knownNetworks { if match { knownNetworks = append(knownNetworks[:i], knownNetworks[i+1:]...) } }`.
Go evaluates the range header once (base pointer and length `n` of the
original slice) but reads each element through the shared backing array, so
iterations observe the in-place shifts done by `append`; the slice variable
only shrinks its length.  `fuel` counts the remaining iterations (starting
at `n`), `i` is the loop index, `arr` the backing array, `lenv` the current
length of the slice variable.  `knownNetworks[i+1:]` panics (`none`) when
`i + 1` exceeds the current length. -/
def deleteLoop (target : List Char) :
    Nat → Nat → List Network → Nat → Option (List Network × Nat)
  | 0, _, arr, lenv => some (arr, lenv)
  | fuel + 1, i, arr, lenv =>
    match arr.get? i with
    | none => some (arr, lenv)
    | some net =>
      if net.ssid = target then
        if lenv < i + 1 then none
        else deleteLoop target fuel (i + 1) (shiftDown arr i lenv) (lenv - 1)
      else deleteLoop target fuel (i + 1) arr lenv

/-- The complete `"x"`-handler delete on a registry: run the loop over the
original length and read back the first `lenv` elements of the backing
array. -/
def deleteNetworks (target : List Char) (networks : List Network) :
    Option (List Network) :=
  (deleteLoop target networks.length 0 networks networks.length).map
    (fun p => p.1.take p.2)

/-- The PasswordEntry branch of the event loop, restricted to its effect on
the password buffer.  `none` models the Go panic: on backspace the code
evaluates `password[:len(password)-1]`, whose low bound is `-1` when the
buffer is empty. -/
def passwordStep (password : List Char) (eid : List Char) : Option (List Char) :=
  if eid.length = 1 then some (password ++ eid)
  else if eid = "<Enter>".toList then some []
  else if eid = "<Escape>".toList ∨ eid = "<C-c>".toList then some []
  else if eid = "<C-u>".toList then some []
  else if eid = "<Backspace>".toList ∨ eid = "<C-<Backspace>>".toList then
    if password = [] then none else some password.dropLast
  else if eid = "<Space>".toList then some (password ++ [' '])
  else some password

/-- The Browsing-state handlers for `"a"` and `"x"`, restricted to their
effect on the known-network registry.  Both start with
`selectedNet := networks[tui.list.SelectedRow]`; `none` models the index
panic when the row is out of range (in particular on an empty scan list),
or a panic inside the delete loop. -/
def browsingStep (networks knownNetworks : List Network) (selectedRow : Nat)
    (eid : List Char) : Option (List Network) :=
  if eid = "a".toList then
    match networks.get? selectedRow with
    | none => none
    | some sel =>
      if sel.security then some knownNetworks
      else some (addNetwork knownNetworks sel)
  else if eid = "x".toList then
    match networks.get? selectedRow with
    | none => none
    | some sel => deleteNetworks sel.ssid knownNetworks
  else some knownNetworks

/-- Join lines back into file content, one `'\n'` after each line — the shape
in which `updateConfFile` accumulates `oldContent` and `newContent`. -/
def joinLines (ls : List (List Char)) : List Char :=
  ls.flatMap (fun l => l ++ ['\n'])

/-- The lines `updateConfFile` keeps for `newContent`: everything up to and
including the first marker line (everything, when there is none). -/
def takeThrough : List (List Char) → List (List Char)
  | [] => []
  | l :: rest => if isMarkerLine l then [l] else l :: takeThrough rest

/-- The serialized entries appended by `updateConfFile` after the marker. -/
def entriesBlob (networks : List Network) : List Char :=
  networks.flatMap (fun n => genNetworkEntry n ++ ['\n'])

/-- The lines of one serialized entry (`genNetworkEntry` without the newline
terminators). -/
def entryLines (n : Network) : List (List Char) :=
  ["network=\x7b".toList]
  ++ (if n.ssid = [] then []
      else ["    ssid=\"".toList ++ escapeString n.ssid ++ ['"']])
  ++ ["    key_mgmt=".toList ++ (if n.security then "WPA-PSK".toList else "NONE".toList)]
  ++ (if n.psk = [] then []
      else ["    psk=\"".toList ++ escapeString n.psk ++ ['"']])
  ++ ["\x7d".toList]

/-- The lines of the generated section for a whole registry: each entry's
lines followed by the blank separator line. -/
def entriesLines (networks : List Network) : List (List Char) :=
  networks.flatMap (fun n => entryLines n ++ [[]])

/-- ssid/psk free of the characters that break the round trip: double
quotes and backslashes (which `unescapeString` does not reverse) and
newlines (which break the line structure). -/
def goodStr (s : List Char) : Prop := '"' ∉ s ∧ '\\' ∉ s ∧ '\n' ∉ s

instance (s : List Char) : Decidable (goodStr s) := by
  unfold goodStr
  infer_instance

/-- A network whose ssid and psk are round-trip safe. -/
def goodNetwork (n : Network) : Prop := goodStr n.ssid ∧ goodStr n.psk

instance (n : Network) : Decidable (goodNetwork n) := by
  unfold goodNetwork
  infer_instance

/-! ## C3: backspace in the PasswordEntry state -/

/-- C3.  The claim says a backspace on an empty password buffer is a no-op
and the session continues.  The code instead evaluates
`password[:len(password)-1]`, whose bound is `-1` on an empty buffer: the
session panics.  On a non-empty buffer the claim's second half holds: exactly
the last character is removed. -/
theorem C3_backspace_behaviour (p : List Char) :
    passwordStep [] "<Backspace>".toList = none ∧
    (p ≠ [] → passwordStep p "<Backspace>".toList = some p.dropLast) := by
  refine ⟨by decide, fun h => ?_⟩
  cases p with
  | nil => exact absurd rfl h
  | cons a l => rfl

/-- Witness for C3 at the concrete buffer `"ab"`. -/
theorem C3_backspace_behaviour_witness :
    passwordStep ['a', 'b'] "<Backspace>".toList = some ['a'] :=
  (C3_backspace_behaviour ['a', 'b']).2 (by decide)

/-! ## C4: the "x" delete handler and duplicate ssids -/

/-- C4 evaluation.  The claim says the delete handler removes all entries
with the selected ssid, even accidental duplicates.  The loop ranges over
the original slice header while `append` shifts the shared backing array in
place, so on `[a, a', b]` the second `a`-entry survives, and on `[a, a']`
the loop even panics (`knownNetworks[2:]` on a slice of length 1). -/
theorem C4_delete_misses_duplicates :
    deleteNetworks ['a'] [⟨['a'], [], false⟩, ⟨['a'], ['p'], false⟩, ⟨['b'], [], false⟩] =
      some [⟨['a'], ['p'], false⟩, ⟨['b'], [], false⟩] ∧
    deleteNetworks ['a'] [⟨['a'], [], false⟩, ⟨['a'], [], false⟩] = none := by decide

/-! ## C6: addNetwork never clobbers an existing entry -/

/-- C6.  Adding a network whose ssid is already present returns the registry
unchanged: nothing is replaced and the new entry is dropped. -/
theorem C6_addNetwork_no_clobber (networks : List Network) (newNet : Network)
    (h : ∃ m ∈ networks, m.ssid = newNet.ssid) :
    addNetwork networks newNet = networks := by
  have hb : networks.any (fun net => decide (net.ssid = newNet.ssid)) = true := by
    simp only [List.any_eq_true, decide_eq_true_eq]
    exact h
  simp [addNetwork, hb]

/-- Witness for C6: re-adding ssid `a` with a different psk and security
leaves the single existing entry untouched. -/
theorem C6_addNetwork_no_clobber_witness :
    addNetwork [⟨['a'], ['p'], true⟩] ⟨['a'], ['q'], false⟩ = [⟨['a'], ['p'], true⟩] :=
  C6_addNetwork_no_clobber [⟨['a'], ['p'], true⟩] ⟨['a'], ['q'], false⟩
    ⟨⟨['a'], ['p'], true⟩, by decide, by decide⟩

/-! ## C7: unescapeString -/

/-- C7 counterexample.  The claim says an input starting with a double quote
whose final character is also a double quote has its surrounding quotes
stripped.  The one-character input `"` starts and ends with a double quote,
yet the code reaches `val[1:0]`, whose slice bounds are out of range: it
panics instead of returning the stripped value. -/
theorem C7_unescape_counterexample :
    unescapeString ['"'] = none ∧ unescapeString ['"'] ≠ some ([], false) := by decide

/-- C7 amended.  Empty input is returned unchanged; input not starting with
a double quote is returned unchanged (bare token); input starting with a
double quote fails with the unbalanced-quotes error exactly when the final
character is not a double quote, and otherwise — provided the input has at
least two characters — the surrounding quotes are stripped with no other
change; the single-character input `"` panics. -/
theorem C7_unescape_amended (val : List Char) :
    (val = [] → unescapeString val = some ([], false)) ∧
    (∀ c cs, val = c :: cs → c ≠ '"' → unescapeString val = some (val, false)) ∧
    (val.head? = some '"' → val.getLast? ≠ some '"' → unescapeString val = some (val, true)) ∧
    (2 ≤ val.length → val.head? = some '"' → val.getLast? = some '"' →
      unescapeString val = some ((val.drop 1).dropLast, false)) ∧
    (val = ['"'] → unescapeString val = none) := by
  cases val with
  | nil =>
    refine ⟨fun _ => rfl, ?_, ?_, ?_, ?_⟩
    · intro c cs h; exact absurd h (by simp)
    · intro h; simp at h
    · intro h; simp at h
    · intro h; exact absurd h (by simp)
  | cons c rest =>
    refine ⟨?_, ?_, ?_, ?_, ?_⟩
    · intro h; exact absurd h (by simp)
    · intro c' cs' hEq hne
      cases hEq
      simp [unescapeString, hne]
    · intro hh hl
      simp only [List.head?_cons, Option.some.injEq] at hh
      subst hh
      simp [unescapeString, hl]
    · intro h2 hh hl
      simp only [List.head?_cons, Option.some.injEq] at hh
      subst hh
      have hrest : rest ≠ [] := by
        intro h; subst h; simp at h2
      simp [unescapeString, hl, hrest]
    · intro h
      cases h
      rfl

/-- Witness for C7 at the concrete input `"a"` (with quotes). -/
theorem C7_unescape_amended_witness :
    unescapeString ['"', 'a', '"'] = some (['a'], false) :=
  (C7_unescape_amended ['"', 'a', '"']).2.2.2.1 (by decide) (by decide) (by decide)

/-! ## C9: add/delete on an empty scan list -/

/-- C9.  With an empty scan list (as after a failed scan command, when
`listScan` returns nil), an `"a"` or `"x"` event in the Browsing state
evaluates `networks[tui.list.SelectedRow]` on an empty slice, which is an
index-out-of-range panic whatever the selected row: the session crashes
rather than ignoring the event. -/
theorem C9_empty_scan_add_delete_panics (knownNetworks : List Network) (row : Nat) :
    browsingStep [] knownNetworks row "a".toList = none ∧
    browsingStep [] knownNetworks row "x".toList = none := by
  cases row <;> exact ⟨rfl, rfl⟩

/-! ## C10: loadConfFile on a line without "=" -/

/-- C10.  A non-blank line inside the generated section that is neither
`network={` nor `}` and contains no `=` character makes `loadConfFile`
read `parts[1]` of a one-element split: index out of range, the load
panics instead of skipping the malformed line. -/
theorem C10_malformed_line_panics :
    loadConfFile (chaifiMarker ++ "\ngarbage\n".toList) = none := by decide

/-! ## Structure lemmas for the updateConfFile scan -/

theorem joinLines_cons (l : List Char) (ls : List (List Char)) :
    joinLines (l :: ls) = (l ++ ['\n']) ++ joinLines ls := by
  simp [joinLines]

theorem joinLines_append (a b : List (List Char)) :
    joinLines (a ++ b) = joinLines a ++ joinLines b := by
  induction a with
  | nil => simp [joinLines]
  | cons l ls ih => simp [joinLines_cons, ih, List.append_assoc]

/-- Once the marker has been seen, the scan only extends `oldContent`. -/
theorem foldl_updStep_true (ls : List (List Char)) :
    ∀ n o, ls.foldl updStep ⟨n, o, true⟩ = ⟨n, o ++ joinLines ls, true⟩ := by
  induction ls with
  | nil => intro n o; simp [joinLines]
  | cons l rest ih =>
    intro n o
    rw [List.foldl_cons]
    have h1 : updStep ⟨n, o, true⟩ l = ⟨n, o ++ l ++ ['\n'], true⟩ := by
      simp [updStep]
    rw [h1, ih]
    simp [joinLines_cons, List.append_assoc]

/-- Before the marker has been seen, the scan keeps lines for `newContent`
up to and including the first marker line. -/
theorem foldl_updStep_false (ls : List (List Char)) :
    ∀ n o, ls.foldl updStep ⟨n, o, false⟩ =
      ⟨n ++ joinLines (takeThrough ls), o ++ joinLines ls, ls.any isMarkerLine⟩ := by
  induction ls with
  | nil => intro n o; simp [joinLines, takeThrough]
  | cons l rest ih =>
    intro n o
    rw [List.foldl_cons]
    cases hm : isMarkerLine l with
    | true =>
      have h1 : updStep ⟨n, o, false⟩ l = ⟨n ++ l ++ ['\n'], o ++ l ++ ['\n'], true⟩ := by
        simp [updStep, hm]
      rw [h1, foldl_updStep_true]
      simp [takeThrough, hm, joinLines_cons, joinLines, List.append_assoc]
    | false =>
      have h1 : updStep ⟨n, o, false⟩ l = ⟨n ++ l ++ ['\n'], o ++ l ++ ['\n'], false⟩ := by
        simp [updStep, hm]
      rw [h1, ih]
      simp [takeThrough, hm, joinLines_cons, List.append_assoc]

theorem takeThrough_eq (ls : List (List Char)) :
    takeThrough ls =
      ls.takeWhile (fun l => !isMarkerLine l) ++
        (ls.dropWhile (fun l => !isMarkerLine l)).take 1 := by
  induction ls with
  | nil => rfl
  | cons l rest ih =>
    cases hm : isMarkerLine l with
    | true => simp [takeThrough, hm, List.takeWhile_cons, List.dropWhile_cons]
    | false => simp [takeThrough, hm, List.takeWhile_cons, List.dropWhile_cons, ih]

theorem foldl_entries (networks : List Network) :
    ∀ base, networks.foldl (fun acc n => acc ++ genNetworkEntry n ++ ['\n']) base =
      base ++ entriesBlob networks := by
  induction networks with
  | nil => intro base; simp [entriesBlob]
  | cons n rest ih => intro base; rw [List.foldl_cons, ih]; simp [entriesBlob, List.append_assoc]

/-! ## C5: preamble preservation -/

/-- C5.  For every file content and every registry, the content written by
`updateConfFile` starts with exactly the lines preceding the (first) marker
line, joined unmodified in their original order — the preamble is preserved
verbatim. -/
theorem C5_preamble_preserved (content : List Char) (networks : List Network) :
    ∃ rest,
      newContentOf content networks =
        joinLines ((splitLines content).takeWhile (fun l => !isMarkerLine l)) ++ rest := by
  refine ⟨joinLines (((splitLines content).dropWhile (fun l => !isMarkerLine l)).take 1)
      ++ (if (splitLines content).any isMarkerLine then []
          else chaifiMarker ++ ['\n'])
      ++ entriesBlob networks, ?_⟩
  unfold newContentOf updScan
  rw [foldl_updStep_false, foldl_entries]
  rw [takeThrough_eq, joinLines_append]
  cases hA : (splitLines content).any isMarkerLine
  · simp [hA, List.append_assoc]
  · simp [hA, List.append_assoc]

/-! ## Codec and line-splitting lemmas -/

theorem flatMap_id_of (f : Char → List Char) (s : List Char)
    (h : ∀ c ∈ s, f c = [c]) : s.flatMap f = s := by
  induction s with
  | nil => rfl
  | cons c cs ih =>
    rw [List.flatMap_cons, h c (List.mem_cons_self c cs),
      ih (fun x hx => h x (List.mem_cons_of_mem c hx))]
    rfl

/-- Escaping is the identity on strings free of backslashes and quotes. -/
theorem escapeString_id (s : List Char) (h1 : '\\' ∉ s) (h2 : '"' ∉ s) :
    escapeString s = s := by
  unfold escapeString
  rw [flatMap_id_of _ s (fun c hc => by
    have : c ≠ '\\' := fun h => h1 (h ▸ hc)
    simp [this])]
  rw [flatMap_id_of _ s (fun c hc => by
    have : c ≠ '"' := fun h => h2 (h ▸ hc)
    simp [this])]

theorem dropCR_eq_self (l : List Char) (h : l.getLast? ≠ some '\r') : dropCR l = l := by
  simp [dropCR, h]

theorem mem_dropCR (x : Char) (l : List Char) (h : x ∈ dropCR l) : x ∈ l := by
  unfold dropCR at h
  split at h
  · exact (List.dropLast_sublist l).subset h
  · exact h

theorem splitLinesAux_line (l : List Char) (hnl : '\n' ∉ l) :
    ∀ acc rest, splitLinesAux (l ++ '\n' :: rest) acc =
      dropCR (acc.reverse ++ l) :: splitLinesAux rest [] := by
  induction l with
  | nil => intro acc rest; simp [splitLinesAux]
  | cons c cs ih =>
    intro acc rest
    have hc : c ≠ '\n' := fun h => hnl (h ▸ List.mem_cons_self c cs)
    have hcs : '\n' ∉ cs := fun h => hnl (List.mem_cons_of_mem c h)
    rw [List.cons_append,
      show splitLinesAux (c :: (cs ++ '\n' :: rest)) acc
          = splitLinesAux (cs ++ '\n' :: rest) (c :: acc) from by
        simp [splitLinesAux, hc],
      ih hcs (c :: acc) rest]
    simp [List.append_assoc]

/-- Splitting the joined lines, followed by any residue, recovers the lines
(when no line contains a newline or ends in a carriage return). -/
theorem splitLines_join_append (ls : List (List Char))
    (h : ∀ l ∈ ls, '\n' ∉ l ∧ l.getLast? ≠ some '\r') :
    ∀ rest, splitLinesAux (joinLines ls ++ rest) [] = ls ++ splitLinesAux rest [] := by
  induction ls with
  | nil => intro rest; simp [joinLines]
  | cons l ls' ih =>
    intro rest
    obtain ⟨hnl, hcr⟩ := h l (List.mem_cons_self l ls')
    rw [joinLines_cons]
    have : (l ++ ['\n']) ++ joinLines ls' ++ rest = l ++ '\n' :: (joinLines ls' ++ rest) := by
      simp [List.append_assoc]
    rw [this, splitLinesAux_line l hnl [] (joinLines ls' ++ rest)]
    rw [List.reverse_nil, List.nil_append, dropCR_eq_self l hcr,
      ih (fun x hx => h x (List.mem_cons_of_mem l hx)) rest]
    simp

/-- Splitting joined well-behaved lines recovers them exactly. -/
theorem splitLines_join (ls : List (List Char))
    (h : ∀ l ∈ ls, '\n' ∉ l ∧ l.getLast? ≠ some '\r') :
    splitLines (joinLines ls) = ls := by
  have := splitLines_join_append ls h []
  simpa [splitLines, splitLinesAux] using this

/-- No produced line contains a newline character. -/
theorem splitLinesAux_no_nl (s : List Char) :
    ∀ acc, '\n' ∉ acc → ∀ l ∈ splitLinesAux s acc, '\n' ∉ l := by
  induction s with
  | nil =>
    intro acc hacc l hl
    unfold splitLinesAux at hl
    split at hl
    · simp at hl
    · simp only [List.mem_singleton] at hl
      subst hl
      intro hmem
      exact hacc (by simpa using mem_dropCR _ _ hmem)
  | cons c cs ih =>
    intro acc hacc l hl
    unfold splitLinesAux at hl
    split at hl
    · rename_i hc
      rcases List.mem_cons.mp hl with h1 | h2
      · subst h1
        intro hmem
        exact hacc (by simpa using mem_dropCR _ _ hmem)
      · exact ih [] (by simp) l h2
    · rename_i hc
      refine ih (c :: acc) ?_ l hl
      intro hmem
      rcases List.mem_cons.mp hmem with h1 | h2
      · exact hc h1.symm
      · exact hacc h2

theorem splitLines_no_nl (s : List Char) : ∀ l ∈ splitLines s, '\n' ∉ l :=
  splitLinesAux_no_nl s [] (by simp)

theorem trimSpaces_cons_space (l : List Char) : trimSpaces (' ' :: l) = trimSpaces l := by
  simp [trimSpaces, List.dropWhile_cons]

theorem trimSpaces_stable (c d : Char) (l : List Char) (hc : c ≠ ' ') (hd : d ≠ ' ') :
    trimSpaces (c :: (l ++ [d])) = c :: (l ++ [d]) := by
  unfold trimSpaces
  rw [List.dropWhile_cons, if_neg (by simpa using hc)]
  have : (c :: (l ++ [d])).reverse = d :: (l.reverse ++ [c]) := by
    simp
  rw [this, List.dropWhile_cons, if_neg (by simpa using hd)]
  simp

theorem splitFirstEq_append (k v : List Char) (h : '=' ∉ k) :
    splitFirstEq (k ++ '=' :: v) = (k, some v) := by
  induction k with
  | nil => simp [splitFirstEq]
  | cons c cs ih =>
    have hc : c ≠ '=' := fun hh => h (hh ▸ List.mem_cons_self c cs)
    have hcs : '=' ∉ cs := fun hh => h (List.mem_cons_of_mem c hh)
    rw [List.cons_append,
      show splitFirstEq (c :: (cs ++ '=' :: v))
          = (c :: (splitFirstEq (cs ++ '=' :: v)).1, (splitFirstEq (cs ++ '=' :: v)).2) from by
        simp [splitFirstEq, hc],
      ih hcs]

/-- Unescaping a value wrapped in double quotes strips exactly the quotes. -/
theorem unescapeString_quoted (X : List Char) :
    unescapeString ('"' :: (X ++ ['"'])) = some (X, false) := by
  have hlast : ('"' :: (X ++ ['"'])).getLast? = some '"' := by
    have : ('"' :: (X ++ ['"'])) = ('"' :: X) ++ ['"'] := by simp
    rw [this, List.getLast?_concat]
  have hne : X ++ ['"'] ≠ [] := by simp
  simp [unescapeString, hlast, hne]

theorem isMarkerLine_space (l : List Char) : isMarkerLine (' ' :: l) = false := by
  rw [isMarkerLine, show chaifiMarker = '#' :: chaifiMarker.tail from rfl]
  have hne : (('#' : Char) == ' ') = false := by decide
  simp [List.isPrefixOf, hne]

/-! ## processLine on the lines of a generated entry -/

theorem processLine_open (net : Option Network) (res : List Network) :
    processLine ⟨true, net, res⟩ "network=\x7b".toList =
      some ⟨true, some ⟨[], [], false⟩, res⟩ := rfl

theorem processLine_close (m : Network) (res : List Network) :
    processLine ⟨true, some m, res⟩ "\x7d".toList =
      some ⟨true, some m, res ++ [m]⟩ := rfl

theorem parseLines_cons_some (st st' : LoadState) (l : List Char) (ls : List (List Char))
    (h : processLine st l = some st') :
    parseLines st (l :: ls) = parseLines st' ls := by
  simp [parseLines, h]

theorem processLine_blank (net : Option Network) (res : List Network) :
    processLine ⟨true, net, res⟩ [] = some ⟨true, net, res⟩ := rfl

theorem processLine_km (s0 p0 : List Char) (b0 : Bool) (res : List Network) (sec : Bool) :
    processLine ⟨true, some ⟨s0, p0, b0⟩, res⟩
        ("    key_mgmt=".toList ++ (if sec then "WPA-PSK".toList else "NONE".toList)) =
      some ⟨true, some ⟨s0, p0, sec⟩, res⟩ := by
  cases sec <;> rfl

theorem processLine_ssidLine (s0 p0 : List Char) (b0 : Bool) (res : List Network) (X : List Char) :
    processLine ⟨true, some ⟨s0, p0, b0⟩, res⟩ ("    ssid=\"".toList ++ X ++ ['"']) =
      some ⟨true, some ⟨X, p0, b0⟩, res⟩ := by
  have hm : isMarkerLine ("    ssid=\"".toList ++ X ++ ['"']) = false :=
    isMarkerLine_space ("   ssid=\"".toList ++ X ++ ['"'])
  have ht : trimSpaces ("ssid=\"".toList ++ X ++ ['"']) = "ssid=\"".toList ++ X ++ ['"'] :=
    trimSpaces_stable 's' '"' ("sid=\"".toList ++ X) (by decide) (by decide)
  have hs : splitFirstEq ("ssid=\"".toList ++ X ++ ['"']) =
      ("ssid".toList, some ('"' :: (X ++ ['"']))) :=
    splitFirstEq_append "ssid".toList ('"' :: (X ++ ['"'])) (by decide)
  have hu := unescapeString_quoted X
  have h1 : ("ssid=\"".toList ++ X ++ ['"'] : List Char) ≠ [] := by simp
  have h2 : ("ssid=\"".toList ++ X ++ ['"'] : List Char) ≠ "network=\x7b".toList := by
    intro h
    injection h with hh _
    exact absurd hh (by decide)
  have h3 : ("ssid=\"".toList ++ X ++ ['"'] : List Char) ≠ "\x7d".toList := by
    intro h
    injection h with hh _
    exact absurd hh (by decide)
  show processLine ⟨true, some ⟨s0, p0, b0⟩, res⟩
      (' ' :: (' ' :: (' ' :: (' ' :: ("ssid=\"".toList ++ X ++ ['"']))))) = _
  simp only [processLine, isMarkerLine_space, Bool.false_eq_true, if_false, Bool.not_true,
    trimSpaces_cons_space, ht, hs, hu, if_neg h1, if_neg h2, if_neg h3]
  rfl

theorem processLine_pskLine (s0 p0 : List Char) (b0 : Bool) (res : List Network) (X : List Char) :
    processLine ⟨true, some ⟨s0, p0, b0⟩, res⟩ ("    psk=\"".toList ++ X ++ ['"']) =
      some ⟨true, some ⟨s0, X, b0⟩, res⟩ := by
  have ht : trimSpaces ("psk=\"".toList ++ X ++ ['"']) = "psk=\"".toList ++ X ++ ['"'] :=
    trimSpaces_stable 'p' '"' ("sk=\"".toList ++ X) (by decide) (by decide)
  have hs : splitFirstEq ("psk=\"".toList ++ X ++ ['"']) =
      ("psk".toList, some ('"' :: (X ++ ['"']))) :=
    splitFirstEq_append "psk".toList ('"' :: (X ++ ['"'])) (by decide)
  have hu := unescapeString_quoted X
  have h1 : ("psk=\"".toList ++ X ++ ['"'] : List Char) ≠ [] := by simp
  have h2 : ("psk=\"".toList ++ X ++ ['"'] : List Char) ≠ "network=\x7b".toList := by
    intro h
    injection h with hh _
    exact absurd hh (by decide)
  have h3 : ("psk=\"".toList ++ X ++ ['"'] : List Char) ≠ "\x7d".toList := by
    intro h
    injection h with hh _
    exact absurd hh (by decide)
  show processLine ⟨true, some ⟨s0, p0, b0⟩, res⟩
      (' ' :: (' ' :: (' ' :: (' ' :: ("psk=\"".toList ++ X ++ ['"']))))) = _
  simp only [processLine, isMarkerLine_space, Bool.false_eq_true, if_false, Bool.not_true,
    trimSpaces_cons_space, ht, hs, hu, if_neg h1, if_neg h2, if_neg h3]
  rfl

/-! ## Entry-level round trip -/

theorem genNetworkEntry_eq (n : Network) :
    genNetworkEntry n = joinLines (entryLines n) := by
  have e1 : ("network=\x7b\n".toList : List Char) = "network=\x7b".toList ++ ['\n'] := rfl
  have e2 : ("\"\n".toList : List Char) = ['"'] ++ ['\n'] := rfl
  have e3 : ("\x7d\n".toList : List Char) = "\x7d".toList ++ ['\n'] := rfl
  by_cases hs : n.ssid = [] <;> by_cases hp : n.psk = [] <;>
    simp [genNetworkEntry, entryLines, joinLines, hs, hp, e1, e2, e3, List.append_assoc]

theorem no_nl_in_wrapped (A X : List Char) (d : Char) (hA : '\n' ∉ A) (hX : '\n' ∉ X)
    (hd : ('\n' : Char) ≠ d) : '\n' ∉ A ++ X ++ [d] := by
  simp only [List.mem_append, List.mem_singleton]
  rintro ((h | h) | h)
  · exact hA h
  · exact hX h
  · exact hd h

theorem getLast_wrapped_ne_cr (A X : List Char) (d : Char) (hd : d ≠ '\r') :
    (A ++ X ++ [d]).getLast? ≠ some '\r' := by
  rw [List.getLast?_concat]
  intro h
  exact hd (by simpa using h)

theorem mem_ite_nil_single {c : Prop} [Decidable c] (x y : List Char)
    (h : y ∈ (if c then ([] : List (List Char)) else [x])) : y = x := by
  split at h
  · simp at h
  · simpa using h

/-- All lines of a well-behaved entry are newline-free and do not end in a
carriage return. -/
theorem entryLines_wf (n : Network)
    (h1 : '"' ∉ n.ssid) (h2 : '\\' ∉ n.ssid) (h3 : '\n' ∉ n.ssid)
    (h4 : '"' ∉ n.psk) (h5 : '\\' ∉ n.psk) (h6 : '\n' ∉ n.psk) :
    ∀ l ∈ entryLines n, '\n' ∉ l ∧ l.getLast? ≠ some '\r' := by
  have es : escapeString n.ssid = n.ssid := escapeString_id _ h2 h1
  have ep : escapeString n.psk = n.psk := escapeString_id _ h5 h4
  have hopen : ('\n' ∉ ("network=\x7b".toList : List Char)) ∧
      ("network=\x7b".toList : List Char).getLast? ≠ some '\r' := by decide
  have hclose : ('\n' ∉ ("\x7d".toList : List Char)) ∧
      ("\x7d".toList : List Char).getLast? ≠ some '\r' := by decide
  have hkm : ('\n' ∉ ("    key_mgmt=".toList ++
        (if n.security then "WPA-PSK".toList else "NONE".toList) : List Char)) ∧
      (("    key_mgmt=".toList ++
        (if n.security then "WPA-PSK".toList else "NONE".toList) : List Char)).getLast?
        ≠ some '\r' := by
    cases hsec : n.security <;> decide
  have hssid : ('\n' ∉ ("    ssid=\"".toList ++ n.ssid ++ ['"'] : List Char)) ∧
      (("    ssid=\"".toList ++ n.ssid ++ ['"'] : List Char)).getLast? ≠ some '\r' :=
    ⟨no_nl_in_wrapped _ _ _ (by decide) h3 (by decide),
      getLast_wrapped_ne_cr _ _ _ (by decide)⟩
  have hpsk : ('\n' ∉ ("    psk=\"".toList ++ n.psk ++ ['"'] : List Char)) ∧
      (("    psk=\"".toList ++ n.psk ++ ['"'] : List Char)).getLast? ≠ some '\r' :=
    ⟨no_nl_in_wrapped _ _ _ (by decide) h6 (by decide),
      getLast_wrapped_ne_cr _ _ _ (by decide)⟩
  intro l hl
  unfold entryLines at hl
  rcases List.mem_append.mp hl with hl4 | hl5
  · rcases List.mem_append.mp hl4 with hl3 | hlp
    · rcases List.mem_append.mp hl3 with hl2 | hlk
      · rcases List.mem_append.mp hl2 with hlo | hls
        · rw [List.mem_singleton.mp hlo]
          exact hopen
        · rw [mem_ite_nil_single _ _ hls, es]
          exact hssid
      · rw [List.mem_singleton.mp hlk]
        exact hkm
    · rw [mem_ite_nil_single _ _ hlp, ep]
      exact hpsk
  · rw [List.mem_singleton.mp hl5]
    exact hclose

/-- Parsing the lines of one well-behaved serialized entry, from any state
inside the generated section, appends exactly that network and leaves the
current-network pointer at it. -/
theorem parseLines_entry (n : Network)
    (h1 : '"' ∉ n.ssid) (h2 : '\\' ∉ n.ssid)
    (h4 : '"' ∉ n.psk) (h5 : '\\' ∉ n.psk)
    (net0 : Option Network) (res : List Network) :
    parseLines ⟨true, net0, res⟩ (entryLines n) = some ⟨true, some n, res ++ [n]⟩ := by
  have es : escapeString n.ssid = n.ssid := escapeString_id _ h2 h1
  have ep : escapeString n.psk = n.psk := escapeString_id _ h5 h4
  obtain ⟨s, p, sec⟩ := n
  simp only at es ep
  by_cases hcs : s = []
  · by_cases hcp : p = []
    · subst hcs; subst hcp
      have hE : entryLines ⟨[], [], sec⟩ =
          ["network=\x7b".toList,
           "    key_mgmt=".toList ++ (if sec then "WPA-PSK".toList else "NONE".toList),
           "\x7d".toList] := by
        simp [entryLines]
      rw [hE,
        parseLines_cons_some _ _ _ _ (processLine_open net0 res),
        parseLines_cons_some _ _ _ _ (processLine_km [] [] false res sec),
        parseLines_cons_some _ _ _ _ (processLine_close ⟨[], [], sec⟩ res)]
      rfl
    · subst hcs
      have hE : entryLines ⟨[], p, sec⟩ =
          ["network=\x7b".toList,
           "    key_mgmt=".toList ++ (if sec then "WPA-PSK".toList else "NONE".toList),
           "    psk=\"".toList ++ p ++ ['"'],
           "\x7d".toList] := by
        simp [entryLines, hcp, ep]
      rw [hE,
        parseLines_cons_some _ _ _ _ (processLine_open net0 res),
        parseLines_cons_some _ _ _ _ (processLine_km [] [] false res sec),
        parseLines_cons_some _ _ _ _ (processLine_pskLine [] [] sec res p),
        parseLines_cons_some _ _ _ _ (processLine_close ⟨[], p, sec⟩ res)]
      rfl
  · by_cases hcp : p = []
    · subst hcp
      have hE : entryLines ⟨s, [], sec⟩ =
          ["network=\x7b".toList,
           "    ssid=\"".toList ++ s ++ ['"'],
           "    key_mgmt=".toList ++ (if sec then "WPA-PSK".toList else "NONE".toList),
           "\x7d".toList] := by
        simp [entryLines, hcs, es]
      rw [hE,
        parseLines_cons_some _ _ _ _ (processLine_open net0 res),
        parseLines_cons_some _ _ _ _ (processLine_ssidLine [] [] false res s),
        parseLines_cons_some _ _ _ _ (processLine_km s [] false res sec),
        parseLines_cons_some _ _ _ _ (processLine_close ⟨s, [], sec⟩ res)]
      rfl
    · have hE : entryLines ⟨s, p, sec⟩ =
          ["network=\x7b".toList,
           "    ssid=\"".toList ++ s ++ ['"'],
           "    key_mgmt=".toList ++ (if sec then "WPA-PSK".toList else "NONE".toList),
           "    psk=\"".toList ++ p ++ ['"'],
           "\x7d".toList] := by
        simp [entryLines, hcs, hcp, es, ep]
      rw [hE,
        parseLines_cons_some _ _ _ _ (processLine_open net0 res),
        parseLines_cons_some _ _ _ _ (processLine_ssidLine [] [] false res s),
        parseLines_cons_some _ _ _ _ (processLine_km s [] false res sec),
        parseLines_cons_some _ _ _ _ (processLine_pskLine s [] sec res p),
        parseLines_cons_some _ _ _ _ (processLine_close ⟨s, p, sec⟩ res)]
      rfl

/-! ## C1: serialize/parse round trip -/

/-- C1 counterexample.  The networkssid `a\nb` contains no double quote and
no backslash, yet serializing and re-parsing does not return the network:
the newline splits the ssid line in two, the dangling fragment has no `=`,
and the entry parser panics (`none`). -/
theorem C1_roundtrip_counterexample :
    parseEntryLines (splitLines (genNetworkEntry ⟨['a', '\n', 'b'], [], false⟩)) = none ∧
    parseEntryLines (splitLines (genNetworkEntry ⟨['a', '\n', 'b'], [], false⟩)) ≠
      some [⟨['a', '\n', 'b'], [], false⟩] := by decide

/-- C1 amended.  For every Network whose ssid and psk contain no double
quote, no backslash and no newline (ssid or psk may be empty, security
either value), serializing with `genNetworkEntry` and parsing the resulting
lines with the entry parser of `loadConfFile` yields exactly the original
Network, field by field. -/
theorem C1_roundtrip_amended (n : Network)
    (h1 : '"' ∉ n.ssid) (h2 : '\\' ∉ n.ssid) (h3 : '\n' ∉ n.ssid)
    (h4 : '"' ∉ n.psk) (h5 : '\\' ∉ n.psk) (h6 : '\n' ∉ n.psk) :
    parseEntryLines (splitLines (genNetworkEntry n)) = some [n] := by
  rw [genNetworkEntry_eq,
    splitLines_join (entryLines n) (entryLines_wf n h1 h2 h3 h4 h5 h6)]
  show (parseLines ⟨true, none, []⟩ (entryLines n)).map (·.result) = some [n]
  rw [parseLines_entry n h1 h2 h4 h5 none []]
  rfl

/-- Witness for C1 at a concrete secured network. -/
theorem C1_roundtrip_amended_witness :
    parseEntryLines (splitLines (genNetworkEntry ⟨['a'], ['p'], true⟩)) =
      some [⟨['a'], ['p'], true⟩] :=
  C1_roundtrip_amended ⟨['a'], ['p'], true⟩ (by decide) (by decide) (by decide)
    (by decide) (by decide) (by decide)

/-! ## C8: scan de-duplication -/

/-- One step of the scan record loop. -/
theorem scanFold_cons (e : Nat) (line : List Char) (rest : List (List Char))
    (acc : List Network) :
    scanFold e (line :: rest) acc =
      if line.length < e + 1 then scanFold e rest acc
      else if trimSpaces (line.take e) = [] then scanFold e rest acc
      else if acc.any (fun n => decide (n.ssid = trimSpaces (line.take e))) then
        scanFold e rest acc
      else scanFold e rest (acc ++ [(⟨trimSpaces (line.take e), [], secOf line⟩ : Network)]) := by
  simp only [scanFold]

/-- Once an ssid is already represented in the accumulator, the scan loop
never changes the entries filtered by that ssid. -/
theorem scanFold_filter_stable (e : Nat) (s : List Char) :
    ∀ (ls : List (List Char)) (acc : List Network),
      acc.any (fun n => decide (n.ssid = s)) = true →
      (scanFold e ls acc).filter (fun n => decide (n.ssid = s)) =
        acc.filter (fun n => decide (n.ssid = s)) := by
  intro ls
  induction ls with
  | nil => intro acc _; rfl
  | cons line rest ih =>
    intro acc h
    rw [scanFold_cons]
    by_cases hlen : line.length < e + 1
    · rw [if_pos hlen]
      exact ih acc h
    · rw [if_neg hlen]
      by_cases ht : trimSpaces (line.take e) = []
      · rw [if_pos ht]
        exact ih acc h
      · rw [if_neg ht]
        by_cases ha : acc.any (fun n => decide (n.ssid = trimSpaces (line.take e))) = true
        · rw [if_pos ha]
          exact ih acc h
        · rw [if_neg ha]
          have hts : trimSpaces (line.take e) ≠ s := by
            intro hEq
            rw [hEq] at ha
            exact ha h
          have hany : (acc ++ [(⟨trimSpaces (line.take e), [], secOf line⟩ : Network)]).any
              (fun n => decide (n.ssid = s)) = true := by
            rw [List.any_append, h, Bool.true_or]
          rw [ih _ hany, List.filter_append]
          have hone : List.filter (fun n => decide (n.ssid = s))
              [(⟨trimSpaces (line.take e), [], secOf line⟩ : Network)] = [] := by
            simp [List.filter_cons, hts]
          rw [hone, List.append_nil]

/-- Before an ssid is represented, the scan result's entries with that ssid
are exactly one entry built from the first matching record (or none). -/
theorem scanFold_filter_find (e : Nat) (s : List Char) (hs : s ≠ []) :
    ∀ (ls : List (List Char)) (acc : List Network),
      acc.any (fun n => decide (n.ssid = s)) = false →
      (scanFold e ls acc).filter (fun n => decide (n.ssid = s)) =
        (match ls.find? (recMatch e s) with
         | some l => [(⟨s, [], secOf l⟩ : Network)]
         | none => []) := by
  intro ls
  induction ls with
  | nil =>
    intro acc h
    show acc.filter (fun n => decide (n.ssid = s)) = []
    exact List.filter_eq_nil_iff.mpr (List.any_eq_false.mp h)
  | cons line rest ih =>
    intro acc h
    rw [scanFold_cons]
    by_cases hlen : line.length < e + 1
    · have hrm : ¬recMatch e s line = true := by
        unfold recMatch
        have hd : decide (e + 1 ≤ line.length) = false := by
          simp
          omega
        rw [hd, Bool.false_and]
        simp
      rw [if_pos hlen, List.find?_cons_of_neg _ hrm]
      exact ih acc h
    · rw [if_neg hlen]
      by_cases ht : trimSpaces (line.take e) = []
      · have hts : trimSpaces (line.take e) ≠ s := by
          intro hEq
          rw [← hEq] at hs
          exact hs ht
        have hrm : ¬recMatch e s line = true := by
          unfold recMatch
          have hd : decide (trimSpaces (line.take e) = s) = false := by simp [hts]
          rw [hd, Bool.and_false]
          simp
        rw [if_pos ht, List.find?_cons_of_neg _ hrm]
        exact ih acc h
      · rw [if_neg ht]
        by_cases hteq : trimSpaces (line.take e) = s
        · have hrm : recMatch e s line = true := by
            unfold recMatch
            simp [hteq, Nat.not_lt.mp hlen]
          rw [List.find?_cons_of_pos _ hrm]
          have hb : ¬acc.any (fun n => decide (n.ssid = trimSpaces (line.take e))) = true := by
            rw [hteq, h]
            simp
          rw [if_neg hb]
          have hany : (acc ++ [(⟨trimSpaces (line.take e), [], secOf line⟩ : Network)]).any
              (fun n => decide (n.ssid = s)) = true := by
            simp [List.any_append, hteq]
          rw [scanFold_filter_stable e s rest _ hany, List.filter_append,
            List.filter_eq_nil_iff.mpr (List.any_eq_false.mp h)]
          simp [List.filter_cons, hteq]
        · have hrm : ¬recMatch e s line = true := by
            unfold recMatch
            have hd : decide (trimSpaces (line.take e) = s) = false := by simp [hteq]
            rw [hd, Bool.and_false]
            simp
          rw [List.find?_cons_of_neg _ hrm]
          by_cases ha : acc.any (fun n => decide (n.ssid = trimSpaces (line.take e))) = true
          · rw [if_pos ha]
            exact ih acc h
          · rw [if_neg ha]
            refine ih _ ?_
            rw [List.any_append, h, Bool.false_or]
            simp [hteq]

theorem insertBySsid_perm (n : Network) : ∀ l, (insertBySsid n l).Perm (n :: l) := by
  intro l
  induction l with
  | nil => exact List.Perm.refl _
  | cons m ms ih =>
    unfold insertBySsid
    by_cases hlt : strLt n.ssid m.ssid = true
    · rw [if_pos hlt]
    · rw [if_neg hlt]
      exact (ih.cons m).trans (List.Perm.swap n m ms)

theorem sortBySsid_perm : ∀ l : List Network, (sortBySsid l).Perm l := by
  intro l
  induction l with
  | nil => exact List.Perm.refl _
  | cons n ns ih =>
    show (insertBySsid n (sortBySsid ns)).Perm (n :: ns)
    exact (insertBySsid_perm n _).trans (ih.cons n)

/-- C8.  For every scan output whose header yields a usable ssid column and
every non-empty ssid `s` with at least one matching record line, the result
of `listScan` contains exactly one entry with ssid `s`, and its security
flag is the one of the first matching record — in particular, when two
record lines yield the same trimmed ssid, only the first occurrence's
attributes are retained. -/
theorem C8_scan_dedup_first_wins (output : List Char) (e : Nat)
    (ls : List (List Char)) (s l : List Char)
    (hctx : scanCtx output = some (e, ls)) (hs : s ≠ [])
    (hfind : ls.find? (recMatch e s) = some l) :
    (listScanOutput output).filter (fun n => decide (n.ssid = s)) = [⟨s, [], secOf l⟩] := by
  have hout : listScanOutput output = sortBySsid (scanFold e ls []) := by
    unfold listScanOutput
    rw [hctx]
  rw [hout]
  have hmain := scanFold_filter_find e s hs ls [] (by simp)
  rw [hfind] at hmain
  have hperm := (sortBySsid_perm (scanFold e ls [])).filter (fun n => decide (n.ssid = s))
  rw [hmain] at hperm
  exact List.perm_singleton.mp hperm

/-- Witness for C8: a scan output with two records sharing the trimmed ssid
`foo`; the result keeps exactly one `foo` entry with the first record's
security flag. -/
theorem C8_scan_dedup_first_wins_witness :
    (listScanOutput "SSID BSSID x\nfoo  a RSN<x\nfoo  b\nbar  c WPA<\n".toList).filter
      (fun n => decide (n.ssid = "foo".toList)) = [⟨"foo".toList, [], true⟩] :=
  C8_scan_dedup_first_wins "SSID BSSID x\nfoo  a RSN<x\nfoo  b\nbar  c WPA<\n".toList 4
    ["foo  a RSN<x".toList, "foo  b".toList, "bar  c WPA<".toList, []]
    "foo".toList "foo  a RSN<x".toList (by decide) (by decide) (by decide)

/-! ## C2: idempotent save of a previously saved document -/

theorem joinLines_nil : joinLines [] = [] := rfl

theorem mem_takeThrough (l : List Char) (ls : List (List Char))
    (h : l ∈ takeThrough ls) : l ∈ ls := by
  induction ls with
  | nil => simp [takeThrough] at h
  | cons a rest ih =>
    unfold takeThrough at h
    split at h
    · rw [List.mem_singleton.mp h]
      exact List.mem_cons_self a rest
    · rcases List.mem_cons.mp h with h1 | h2
      · rw [h1]; exact List.mem_cons_self a rest
      · exact List.mem_cons_of_mem a (ih h2)

theorem takeThrough_of_no_marker (ls : List (List Char))
    (h : ls.any isMarkerLine = false) : takeThrough ls = ls := by
  induction ls with
  | nil => rfl
  | cons a rest ih =>
    rw [List.any_cons, Bool.or_eq_false_iff] at h
    simp [takeThrough, h.1, ih h.2]

theorem takeThrough_append (a b : List (List Char)) :
    takeThrough (a ++ b) =
      if a.any isMarkerLine = true then takeThrough a else a ++ takeThrough b := by
  induction a with
  | nil => simp [takeThrough]
  | cons x xs ih =>
    cases hx : isMarkerLine x with
    | true => simp [takeThrough, hx, List.any_cons]
    | false =>
      cases hxs : xs.any isMarkerLine with
      | true => simp [takeThrough, hx, hxs, List.any_cons, ih]
      | false => simp [takeThrough, hx, hxs, List.any_cons, ih]

theorem takeThrough_decomp (ls : List (List Char)) (h : ls.any isMarkerLine = true) :
    ∃ A M, takeThrough ls = A ++ [M] ∧ A.any isMarkerLine = false ∧
      isMarkerLine M = true := by
  induction ls with
  | nil => simp at h
  | cons a rest ih =>
    cases ha : isMarkerLine a with
    | true => exact ⟨[], a, by simp [takeThrough, ha], by simp, ha⟩
    | false =>
      rw [List.any_cons, ha, Bool.false_or] at h
      obtain ⟨A, M, h1, h2, h3⟩ := ih h
      exact ⟨a :: A, M, by simp [takeThrough, ha, h1], by simp [List.any_cons, ha, h2], h3⟩

theorem entriesBlob_eq (N : List Network) : entriesBlob N = joinLines (entriesLines N) := by
  induction N with
  | nil => rfl
  | cons n rest ih =>
    show genNetworkEntry n ++ ['\n'] ++ entriesBlob rest =
      joinLines ((entryLines n ++ [[]]) ++ entriesLines rest)
    rw [joinLines_append, joinLines_append, ih, genNetworkEntry_eq]
    show _ = joinLines (entryLines n) ++ ([] ++ ['\n'] ++ joinLines []) ++ joinLines (entriesLines rest)
    rw [joinLines_nil]
    simp [List.append_assoc]

theorem newContentOf_eq (P : List Char) (N : List Network) :
    newContentOf P N = joinLines (takeThrough (splitLines P)
      ++ (if (splitLines P).any isMarkerLine = true then [] else [chaifiMarker])
      ++ entriesLines N) := by
  unfold newContentOf updScan
  rw [foldl_updStep_false, foldl_entries]
  cases hA : (splitLines P).any isMarkerLine
  · simp only [hA, Bool.false_eq_true, if_false]
    rw [joinLines_append, joinLines_append, joinLines_cons, joinLines_nil, entriesBlob_eq]
    simp [List.append_assoc]
  · simp only [hA, if_true]
    rw [joinLines_append, joinLines_append, joinLines_nil, entriesBlob_eq]
    simp [List.append_assoc]

theorem entriesLines_wf (N : List Network) (hg : ∀ n ∈ N, goodNetwork n) :
    ∀ l ∈ entriesLines N, '\n' ∉ l ∧ l.getLast? ≠ some '\r' := by
  intro l hl
  unfold entriesLines at hl
  rw [List.mem_flatMap] at hl
  obtain ⟨n, hn, hl'⟩ := hl
  rcases List.mem_append.mp hl' with h1 | h2
  · obtain ⟨⟨ga, gb, gc⟩, gd, ge, gf⟩ := hg n hn
    exact entryLines_wf n ga gb gc gd ge gf l h1
  · rw [List.mem_singleton.mp h2]
    exact ⟨by simp, by simp⟩

theorem processLine_skip (net : Option Network) (res : List Network) (l : List Char)
    (h : isMarkerLine l = false) :
    processLine ⟨false, net, res⟩ l = some ⟨false, net, res⟩ := by
  simp [processLine, h]

theorem processLine_marker (g : Bool) (net : Option Network) (res : List Network)
    (l : List Char) (h : isMarkerLine l = true) :
    processLine ⟨g, net, res⟩ l = some ⟨true, net, res⟩ := by
  simp [processLine, h]

theorem parseLines_append (a b : List (List Char)) :
    ∀ st, parseLines st (a ++ b) =
      match parseLines st a with
      | none => none
      | some st' => parseLines st' b := by
  induction a with
  | nil => intro st; rfl
  | cons l ls ih =>
    intro st
    show parseLines st (l :: (ls ++ b)) = _
    cases hp : processLine st l with
    | none => simp [parseLines, hp]
    | some st' => simp [parseLines, hp, ih]

theorem parseLines_skip_prefix (A : List (List Char)) (h : A.any isMarkerLine = false) :
    ∀ (net : Option Network) (res : List Network) (b : List (List Char)),
      parseLines ⟨false, net, res⟩ (A ++ b) = parseLines ⟨false, net, res⟩ b := by
  induction A with
  | nil => intro net res b; rfl
  | cons l ls ih =>
    intro net res b
    rw [List.any_cons, Bool.or_eq_false_iff] at h
    rw [List.cons_append, parseLines_cons_some _ _ _ _ (processLine_skip net res l h.1)]
    exact ih h.2 net res b

theorem parseLines_entries (N : List Network) (hg : ∀ n ∈ N, goodNetwork n) :
    ∀ (net0 : Option Network) (res : List Network),
      ∃ net', parseLines ⟨true, net0, res⟩ (entriesLines N) = some ⟨true, net', res ++ N⟩ := by
  induction N with
  | nil =>
    intro net0 res
    exact ⟨net0, by simp [entriesLines, parseLines]⟩
  | cons n rest ih =>
    intro net0 res
    obtain ⟨⟨ga, gb, _⟩, gd, ge, _⟩ := hg n (List.mem_cons_self n rest)
    have h1 : entriesLines (n :: rest) = (entryLines n ++ [[]]) ++ entriesLines rest := by
      simp [entriesLines]
    have hX : parseLines ⟨true, net0, res⟩ (entryLines n ++ [[]]) =
        some ⟨true, some n, res ++ [n]⟩ := by
      rw [parseLines_append, parseLines_entry n ga gb gd ge net0 res]
      show parseLines ⟨true, some n, res ++ [n]⟩ [[]] = _
      rw [parseLines_cons_some _ _ _ _ (processLine_blank (some n) (res ++ [n]))]
      rfl
    obtain ⟨net', hrec⟩ := ih (fun m hm => hg m (List.mem_cons_of_mem n hm)) (some n) (res ++ [n])
    refine ⟨net', ?_⟩
    rw [h1, parseLines_append, hX]
    show parseLines ⟨true, some n, res ++ [n]⟩ (entriesLines rest) = _
    rw [hrec]
    simp

/-- C2 counterexample.  The ssid consisting of the single character `"` gives
a previously saved file (saved from an empty file, status "changed") whose
loaded registry is the escaped form `\"`; saving that unchanged registry back
re-escapes it, so the content differs, the file is rewritten and the status
is "changed" (`true`) instead of the claimed "unchanged" no-write. -/
theorem C2_idempotent_save_counterexample :
    updateConfFile [] [⟨['"'], [], false⟩] = (newContentOf [] [⟨['"'], [], false⟩], true) ∧
    loadConfFile (newContentOf [] [⟨['"'], [], false⟩]) = some [⟨['\\', '"'], [], false⟩] ∧
    (updateConfFile (newContentOf [] [⟨['"'], [], false⟩]) [⟨['\\', '"'], [], false⟩]).2
      = true := by decide

/-- C2 amended.  For every file content `P` whose scanned lines do not end
in a carriage return and every registry of networks whose ssid and psk are
free of double quotes, backslashes and newlines, the content `C` produced by
a save of that registry against `P` satisfies: loading `C` returns exactly
that registry; saving it back regenerates byte-identical content; and
`updateConfFile` skips the write and returns the "unchanged" status. -/
theorem C2_idempotent_save_amended (P : List Char) (N : List Network)
    (hg : ∀ n ∈ N, goodNetwork n)
    (hP : ∀ l ∈ splitLines P, l.getLast? ≠ some '\r') :
    loadConfFile (newContentOf P N) = some N ∧
    newContentOf (newContentOf P N) N = newContentOf P N ∧
    updateConfFile (newContentOf P N) N = (newContentOf P N, false) := by
  have hdecomp : ∃ A M, takeThrough (splitLines P)
      ++ (if (splitLines P).any isMarkerLine = true then [] else [chaifiMarker]) =
      A ++ [M] ∧ A.any isMarkerLine = false ∧ isMarkerLine M = true := by
    cases hA : (splitLines P).any isMarkerLine
    · refine ⟨splitLines P, chaifiMarker, ?_, hA, by decide⟩
      rw [takeThrough_of_no_marker _ hA]
      simp [hA]
    · obtain ⟨A, M, h1, h2, h3⟩ := takeThrough_decomp _ hA
      exact ⟨A, M, by simp [hA, h1], h2, h3⟩
  obtain ⟨A, M, hAM, hAno, hM⟩ := hdecomp
  have hC : newContentOf P N = joinLines ((A ++ [M]) ++ entriesLines N) := by
    rw [newContentOf_eq P N, hAM]
  have hwf : ∀ l ∈ (A ++ [M]) ++ entriesLines N, '\n' ∉ l ∧ l.getLast? ≠ some '\r' := by
    intro l hl
    rcases List.mem_append.mp hl with h12 | h3
    · rw [← hAM] at h12
      rcases List.mem_append.mp h12 with h1 | h2
      · exact ⟨splitLines_no_nl P l (mem_takeThrough _ _ h1), hP l (mem_takeThrough _ _ h1)⟩
      · have hlm : l = chaifiMarker := by
          split at h2
          · simp at h2
          · exact List.mem_singleton.mp h2
        rw [hlm]
        exact ⟨by decide, by decide⟩
    · exact entriesLines_wf N hg l h3
  have hsplitC : splitLines (newContentOf P N) = (A ++ [M]) ++ entriesLines N := by
    rw [hC]
    exact splitLines_join _ hwf
  have hanyC : (((A ++ [M]) ++ entriesLines N).any isMarkerLine) = true := by
    simp [List.any_append, List.any_cons, hM]
  have htkC : takeThrough ((A ++ [M]) ++ entriesLines N) = A ++ [M] := by
    rw [List.append_assoc, takeThrough_append, if_neg (by simp [hAno])]
    rw [show takeThrough ([M] ++ entriesLines N) = [M] from by
      simp [takeThrough, hM]]
  have hidem : newContentOf (newContentOf P N) N = newContentOf P N := by
    rw [newContentOf_eq (newContentOf P N) N, hsplitC, htkC, hanyC, hC]
    simp
  have hold : (updScan (newContentOf P N)).oldContent = newContentOf P N := by
    unfold updScan
    rw [hsplitC, foldl_updStep_false, hC]
    simp
  refine ⟨?_, hidem, ?_⟩
  · unfold loadConfFile
    rw [hsplitC, List.append_assoc,
      parseLines_skip_prefix A hAno none [] ([M] ++ entriesLines N),
      show ([M] ++ entriesLines N) = M :: entriesLines N from by simp,
      parseLines_cons_some _ _ _ _ (processLine_marker false none [] M hM)]
    obtain ⟨net', hrec⟩ := parseLines_entries N hg none []
    rw [hrec]
    rfl
  · unfold updateConfFile
    rw [if_pos (by rw [hold, hidem])]

/-- Witness for C2 at a concrete preamble and a concrete secured network. -/
theorem C2_idempotent_save_amended_witness :
    updateConfFile (newContentOf "pre\n".toList [⟨['a'], ['p'], true⟩]) [⟨['a'], ['p'], true⟩] =
      (newContentOf "pre\n".toList [⟨['a'], ['p'], true⟩], false) :=
  (C2_idempotent_save_amended "pre\n".toList [⟨['a'], ['p'], true⟩]
    (by decide) (by decide)).2.2
